import Mathlib

/-!
A verification development for the redux-orm entity store and relation
engine.  JavaScript values, records (plain objects) and the per-model
store state are shallowly embedded; the `Backend` primitives, the
`Model` static/prototype methods and the update-queue fold are
translated from `src/Backend.js` and the `Model` source file.  Where a
function lives in a module that is not part of the sources
(`utils.js`: `objectDiff`, `match`, `arrayDiffActions`; `QuerySet`
many-to-many edits; lodash `sortByOrder`), the definition is modelled
from the specification and says so in its doc comment.

Modelling scope: identifiers are integers (`Int`), field values are
the scalar JavaScript values the claims exercise (integers, strings,
`null`, `undefined`).  JavaScript object identity is modelled, where a
claim is about reference identity, by an explicit heap of records,
arrays and index maps addressed by allocation index; elsewhere the
embedding is value-level.
-/

/-- A scalar JavaScript value as stored in an entity's fields. -/
inductive Val where
  | vint (n : Int)
  | vstr (s : String)
  | vnull
  | vundef
  deriving DecidableEq, Repr

/-- A plain JavaScript object: an association list from key to value,
keys unique by construction of the operations below (JS object key
order is preserved: an overwritten key keeps its position, a fresh key
is appended). -/
abbrev Obj := List (String × Val)

/-- Key lookup on an object; `none` when the key is absent
(`hasOwnProperty` is false). -/
def olookup : Obj → String → Option Val
  | [], _ => none
  | (k, v) :: rest, key => if k = key then some v else olookup rest key

/-- Property read: an absent key reads as `undefined` in JavaScript. -/
def getD (o : Obj) (k : String) : Val :=
  (olookup o k).getD Val.vundef

/-- Property write on an object value: overwrite in place if the key
exists, append otherwise (JS key-order semantics). -/
def oset : Obj → String → Val → Obj
  | [], k, v => [(k, v)]
  | (k', v') :: rest, k, v =>
      if k' = k then (k, v) :: rest else (k', v') :: oset rest k v

/-- `Object.assign({}, a, b)`: `a`'s entries with `b`'s overrides,
`b`-only keys appended in `b`'s order. -/
def omerge (a b : Obj) : Obj :=
  b.foldl (fun acc kv => oset acc kv.1 kv.2) a

/-- Lookup in an id-indexed map of record references
(`branch[mapName][id]`). -/
def mlookup : List (Int × Nat) → Int → Option Nat
  | [], _ => none
  | (k, r) :: rest, i => if k = i then some r else mlookup rest i

/-- Add/overwrite one id key in a map of record references
(`Object.assign` with a one-entry object). -/
def mset : List (Int × Nat) → Int → Nat → List (Int × Nat)
  | [], i, r => [(i, r)]
  | (k, r') :: rest, i, r =>
      if k = i then (i, r) :: rest else (k, r') :: mset rest i r

/-- Lookup in a value-level id-indexed map of records. -/
def mlookupO : List (Int × Obj) → Int → Option Obj
  | [], _ => none
  | (k, o) :: rest, i => if k = i then some o else mlookupO rest i

/-- Add/overwrite one id key in a value-level map of records. -/
def msetO : List (Int × Obj) → Int → Obj → List (Int × Obj)
  | [], i, o => [(i, o)]
  | (k, o') :: rest, i, o =>
      if k = i then (i, o) :: rest else (k, o') :: msetO rest i o

/-- `Math.max(...idArr)` over a non-empty list (the empty case is
guarded at every call site, as in `Model.nextId`). -/
def listMax : List Int → Int
  | [] => 0
  | [x] => x
  | x :: y :: rest => max x (listMax (y :: rest))

/-- Modelled from the spec: `objectDiff(entity, patcher)` from
`utils.js` (absent from the sources).  Per §4.1, a patch entry is a
no-op when the record already holds the patch value; the diff is the
sub-object of `patcher` whose entries differ from `entity`, and a
falsy value (here `none`) when no entry differs. -/
def objectDiffO (a b : Obj) : Option Obj :=
  let d := b.filter (fun kv => getD a kv.1 ≠ kv.2)
  if d = [] then none else some d

/-- Modelled from the spec: `objectDiff` applied to two id-indexed
maps of record references (the second call site in `Backend.update`);
entries of `b` whose reference differs from `a`'s, `none` when none
differ. -/
def mapDiff (a b : List (Int × Nat)) : Option (List (Int × Nat)) :=
  let d := b.filter (fun pr => mlookup a pr.1 ≠ some pr.2)
  if d = [] then none else some d

/-- Modelled from the spec: `match(lookupObj, entity)` from `utils.js`
(absent from the sources).  A pattern matches when every key in the
pattern equals the corresponding record field (§4.4). -/
def matchesB (lookup rec_ : Obj) : Bool :=
  lookup.all (fun kv => getD rec_ kv.1 = kv.2)

/-! ## Reference-level model of the indexed Backend

JavaScript object identity is modelled by a heap of append-only pools:
id arrays, id-to-record index maps, and record objects, each addressed
by its allocation index.  A store state (`branch`) holds references to
its order array and its index map, exactly as a JS branch object holds
references to `branch[arrName]` and `branch[mapName]`. -/

/-- The heap: pools of allocated id arrays, index maps and records. -/
structure Heap where
  arrs : List (List Int)
  maps : List (List (Int × Nat))
  recs : List Obj
  deriving DecidableEq, Repr

/-- An indexed-form branch: references to the order array and the
index map (`{ [arrName]: ..., [mapName]: ... }`). -/
structure IState where
  arrRef : Nat
  mapRef : Nat
  deriving DecidableEq, Repr

/-- `Backend.insert`, indexed form, copy-on-write discipline
(`withMutations` false): reads the entry's id, allocates a new order
array `old.concat(id)` and a new index map
`Object.assign({}, old, {[id]: entry})`; the input branch and heap
entries are untouched.  The entry itself is passed by reference, as in
the source. -/
def insertCowIdx (idA : String) (h : Heap) (s : IState) (entryRef : Nat) :
    Option (Heap × IState) := do
  let A ← h.arrs[s.arrRef]?
  let M ← h.maps[s.mapRef]?
  let E ← h.recs[entryRef]?
  match olookup E idA with
  | some (Val.vint i) =>
      some (⟨h.arrs ++ [A ++ [i]], h.maps ++ [mset M i entryRef], h.recs⟩,
            ⟨h.arrs.length, h.maps.length⟩)
  | _ => none

/-- The `idArr.reduce` loop of `Backend.update` (indexed form): for
each affected id, apply the object patcher's map function to its
record; a changed result is a freshly allocated merge
`Object.assign({}, entity, patcher)` recorded under the id, an
unchanged record (`objectDiff` falsy) is skipped.  Returns the
extended heap and the accumulated `updatedMap` entries. -/
def collectUpdates (patcher : Obj) (M : List (Int × Nat)) :
    Heap → List Int → Option (Heap × List (Int × Nat))
  | h, [] => some (h, [])
  | h, id :: rest => do
      let r ← mlookup M id
      let e ← h.recs[r]?
      match objectDiffO e patcher with
      | none => collectUpdates patcher M h rest
      | some _ => do
          let h' : Heap := ⟨h.arrs, h.maps, h.recs ++ [omerge e patcher]⟩
          let (h'', um) ← collectUpdates patcher M h' rest
          some (h'', (id, h.recs.length) :: um)

/-- `Backend.update`, indexed form, copy-on-write discipline, object
patcher: reuses the order-array reference, shallow-copies the index
map, computes the changed entries, and either returns the original
branch when the diff is empty or allocates the merged index map. -/
def updateCowIdx (h : Heap) (s : IState) (idArr : List Int) (patcher : Obj) :
    Option (Heap × IState) := do
  let M ← h.maps[s.mapRef]?
  let (h1, um) ← collectUpdates patcher M h idArr
  match mapDiff M um with
  | none => some (h1, s)
  | some d =>
      some (⟨h1.arrs, h1.maps ++ [d.foldl (fun m pr => mset m pr.1 pr.2) M], h1.recs⟩,
            ⟨s.arrRef, h1.maps.length⟩)

/-- `entity[idAttribute]` membership test used by the flat branch of
`Backend.update`: `idArr.includes(entity[idAttribute])` under strict
equality, for integer identifiers. -/
def memIds (v : Val) (ids : List Int) : Bool :=
  match v with
  | Val.vint i => ids.contains i
  | _ => false

/-- Result of the flat-form copy-on-write `Backend.update`: either the
original branch object itself (`updated` stayed false) or a freshly
allocated branch with the mapped items array. -/
inductive FlatUpd where
  | orig
  | fresh (items : List Obj)
  deriving DecidableEq, Repr

/-- `Backend.update`, flat form, copy-on-write discipline, object
patcher: maps over the items, merging records whose id is affected and
whose diff against the patcher is non-empty; returns the input branch
unchanged when no record changed. -/
def updateCowFlat (idA : String) (items : List Obj) (idArr : List Int)
    (patcher : Obj) : FlatUpd :=
  let mapped := items.map (fun e =>
    if memIds (getD e idA) idArr then
      match objectDiffO e patcher with
      | some _ => omerge e patcher
      | none => e
    else e)
  let updated := items.any (fun e =>
    memIds (getD e idA) idArr && (objectDiffO e patcher).isSome)
  if updated then FlatUpd.fresh mapped else FlatUpd.orig

/-- An element of a flat items array: a primitive value or a record
object.  JavaScript strict equality between a primitive and an object
is always false; between two primitives it is value equality.  (Object
identity is approximated structurally; the claims compare only
primitives against records, where the approximation is exact.) -/
inductive JsVal where
  | prim (v : Val)
  | obj (o : Obj)
  deriving DecidableEq, Repr

/-- `arr.indexOf(x)` under strict equality. -/
def jsIndexOf (arr : List JsVal) (x : JsVal) : Option Nat :=
  arr.findIdx? (fun y => y = x)

/-- `Backend.delete`, flat form, mutate-in-place discipline, as
written in the source: for each id, `idx = arr.indexOf(id)` and then
`if (idx === -1) arr.splice(idx, 1)` — splicing at index -1, which
removes the LAST element whenever the id was NOT found (and removes
nothing when it was found).  `splice(-1, 1)` on an empty array removes
nothing. -/
def deleteFlatMut (items : List JsVal) (idsToDelete : List Val) : List JsVal :=
  idsToDelete.foldl (fun arr id =>
    match jsIndexOf arr (JsVal.prim id) with
    | some _ => arr
    | none => arr.dropLast) items

/-! ## Value-level model of the store state and the update-queue fold

For the claims about `Model`'s static methods and the batch fold,
reference identity plays no role, so the state is embedded at the
value level: the indexed default configuration
`{items: [...ids], itemsById: {id: record}}` with the copy-on-write
code paths of `Backend`. -/

/-- The indexed branch at the value level. -/
structure VState where
  items : List Int
  itemsById : List (Int × Obj)
  deriving DecidableEq, Repr

/-- `Backend.getDefaultState`, indexed form. -/
def defaultStateV : VState := ⟨[], []⟩

/-- `Backend.insert`, indexed copy-on-write, at the value level:
append the entry's id to the order array and the entry to the index
map.  `none` outside the modelled domain of integer identifiers. -/
def insertV (idA : String) (s : VState) (entry : Obj) : Option VState :=
  match getD entry idA with
  | Val.vint i => some ⟨s.items ++ [i], msetO s.itemsById i entry⟩
  | _ => none

/-- `Backend.update`, indexed copy-on-write, object patcher, at the
value level: merge the patcher over each affected record whose diff is
non-empty; an id absent from the index map faults in the source
(`objectDiff` on `undefined`), modelled as `none`. -/
def updateV (s : VState) (idArr : List Int) (patcher : Obj) : Option VState := do
  let changed ← idArr.foldlM (fun (acc : List (Int × Obj)) id => do
      let e ← mlookupO s.itemsById id
      match objectDiffO e patcher with
      | none => pure acc
      | some _ => pure (acc ++ [(id, omerge e patcher)])) []
  if changed = [] then pure s
  else pure ⟨s.items, changed.foldl (fun m pr => msetO m pr.1 pr.2) s.itemsById⟩

/-- `Backend.delete`, indexed copy-on-write, at the value level:
filter the order array and omit the deleted keys from the index
map. -/
def deleteV (s : VState) (ids : List Int) : VState :=
  ⟨s.items.filter (fun i => !ids.contains i),
   s.itemsById.filter (fun pr => !ids.contains pr.1)⟩

/-- A total order on scalar values used to model the lodash
`sortByOrder` comparison for the values the claims exercise
(constructor rank, then numeric or lexicographic order). -/
def valLe (a b : Val) : Bool :=
  match a, b with
  | Val.vint x, Val.vint y => x ≤ y
  | Val.vstr x, Val.vstr y => x ≤ y
  | Val.vint _, _ => true
  | _, Val.vint _ => false
  | Val.vstr _, _ => true
  | _, Val.vstr _ => false
  | _, _ => true

/-- A stable insertion sort (lodash `sortByOrder` is a stable sort;
the library itself is external to the repository). -/
def insSortBy (le : Obj → Obj → Bool) : List Obj → List Obj
  | [] => []
  | x :: rest => insertSorted le x (insSortBy le rest)
where
  insertSorted (le : Obj → Obj → Bool) (x : Obj) : List Obj → List Obj
    | [] => [x]
    | y :: ys => if le x y then x :: y :: ys else y :: insertSorted le x ys

/-- `Backend.accessList` at the value level: materialize each record
with the identifier field injected
(`Object.assign({[idAttribute]: id}, obj)`). -/
def accessListV (idA : String) (s : VState) : List Obj :=
  s.items.map (fun i => omerge [(idA, Val.vint i)] ((mlookupO s.itemsById i).getD []))

/-- `Backend.order`, indexed copy-on-write, for a single attribute-name
iteratee (`sortByOrder` modelled from the spec: stable sort by the
key's value, ascending): sorts the materialized records and rewrites
the order array to their ids; the index map is reused. -/
def orderV (idA : String) (s : VState) (key : String) : VState :=
  let sorted := insSortBy (fun a b => valLe (getD a key) (getD b key)) (accessListV idA s)
  ⟨sorted.map (fun o => match getD o idA with | Val.vint i => i | _ => 0),
   s.itemsById⟩

/-- The payload of an `UPDATE` action as the reducer reads it:
`payload.idArr` and `payload.updater`, each `none` when the enqueued
payload object lacks that key (it then reads as `undefined`); `extra`
carries any other keys of the payload object, which the reducer
ignores. -/
structure UpdatePayload where
  idArr : Option (List Int)
  updater : Option Obj
  extra : Obj
  deriving DecidableEq, Repr

/-- A queued action (`{type, payload}`); `other` stands for any
unrecognized action type, which the reducer's `default` case leaves
the state untouched by. -/
inductive QAction where
  | create (payload : Obj)
  | update (payload : UpdatePayload)
  | order (key : String)
  | delete (ids : List Int)
  | other
  deriving DecidableEq, Repr

/-- `Model.updateReducer`: dispatch one action to the Backend
primitive for its type.  An `UPDATE` whose payload lacks `idArr` or
`updater` makes `Backend.update` throw (`undefined.reduce` /
`objectDiff` on `undefined`), modelled as `none`. -/
def updateReducerV (idA : String) (s : VState) : QAction → Option VState
  | QAction.create p => insertV idA s p
  | QAction.update pl =>
      match pl.idArr, pl.updater with
      | some ids, some u => updateV s ids u
      | _, _ => none
  | QAction.order k => some (orderV idA s k)
  | QAction.delete ids => some (deleteV s ids)
  | QAction.other => some s

/-- `Model.getNextState`: when the store's current state is
`undefined`, return the default empty state without consulting the
queue; otherwise fold the queued actions left to right over the
current state with `updateReducer`. -/
def getNextStateV (idA : String) (state? : Option VState) (queue : List QAction) :
    Option VState :=
  match state? with
  | none => some defaultStateV
  | some s => queue.foldl (fun acc a => acc.bind (fun st => updateReducerV idA st a)) (some s)

/-! ## The Model layer: entity handles, lookups, id assignment -/

/-- An entity handle (`Model` instance): the field snapshot captured
at construction (`this._fields = props`).  When `withId` misses, the
constructor receives `undefined` and the snapshot is absent. -/
structure MHandle where
  snap : Option Obj
  deriving DecidableEq, Repr

/-- Reading a field through a handle returns the snapshot value
captured at construction (the per-field getter closes over
`fieldValue`); on a handle built from `undefined` no getters exist and
every read yields `undefined`. -/
def handleRead (h : MHandle) (k : String) : Val :=
  getD (h.snap.getD []) k

/-- Assigning a field through a handle: the per-field setter enqueues
`{type: UPDATE, payload: {[idAttribute]: this.getId(), [fieldName]:
value}}` — a payload object that has neither an `idArr` nor an
`updater` key, so both read as `undefined` to the reducer; the
identifier and the assigned field ride along as plain payload keys. -/
def handleFieldSet (idA : String) (h : MHandle) (k : String) (v : Val) : QAction :=
  QAction.update ⟨none, none, [(idA, handleRead h idA), (k, v)]⟩

/-- `Model.prototype.update` for plain (non-relational) fields:
enqueues `{type: UPDATE, payload: {idArr: [this.getId()], updater:
mergeObj}}`. -/
def handleUpdate (idA : String) (h : MHandle) (mergeObj : Obj) : QAction :=
  QAction.update ⟨some [(match handleRead h idA with | Val.vint i => i | _ => 0)],
                  some mergeObj, []⟩

/-- What `Model.withId` returns, as a JavaScript value: the source
always constructs `new ModelClass(this.accessId(id))`, so the result
is a handle; `absent` is the shape the spec claims for a miss. -/
inductive WithIdRes where
  | handle (h : MHandle)
  | absent
  deriving DecidableEq, Repr

/-- `Model.withId`: construct a handle from `accessId`'s result — also
when the id is absent and `accessId` returned `undefined`. -/
def withIdM (s : VState) (id : Int) : WithIdRes :=
  WithIdRes.handle ⟨mlookupO s.itemsById id⟩

/-- `Backend.accessId` keyed by a lookup value: an integer indexes the
map; any other value misses (`branch[mapName][v]` is `undefined`). -/
def accessIdV (s : VState) : Val → Option Obj
  | Val.vint i => mlookupO s.itemsById i
  | _ => none

/-- What `Model.get` produces: the matched entity's record (wrapped in
a fresh handle by the source), or one of its two distinct thrown
errors: `No entities found for model ...` and `Model instance not
found when calling get method`. -/
inductive GetRes where
  | found (props : Obj)
  | errNoEntities
  | errNotFound
  deriving DecidableEq, Repr

/-- `Model.get`: an empty store raises the no-entities error; a lookup
object owning the identifier attribute searches by that id alone
(every other lookup key is ignored); otherwise the entities are
scanned in order and the first record matching every lookup key is
returned; no match raises the not-found error.  (The iteration is over
the raw index-map records, as `Backend.iterator` yields them; the
`ListIterator` class lives in the absent `utils.js` and is modelled
from the spec as in-order first-match iteration.) -/
def getM (idA : String) (s : VState) (lookup : Obj) : GetRes :=
  if s.items.length = 0 then GetRes.errNoEntities
  else
    match olookup lookup idA with
    | some v =>
        match accessIdV s v with
        | some props => GetRes.found props
        | none => GetRes.errNotFound
    | none =>
        match (s.items.map (fun i => (mlookupO s.itemsById i).getD [])).find?
            (fun r => matchesB lookup r) with
        | some r => GetRes.found r
        | none => GetRes.errNotFound

/-! ## Identifier assignment (`Model.nextId` / `Model.create`) -/

/-- `Model.nextId` with the session cache: an unset cache is
initialized to 0 for an empty store and `Math.max(...ids) + 1`
otherwise; a set cache is returned as is.  Yields the value and the
cache after the call (the call always leaves the cache set). -/
def nextIdFn (sids : List Int) (cache : Option Int) : Int × Int :=
  match cache with
  | some n => (n, n)
  | none =>
      let n := if sids.isEmpty then 0 else listMax sids + 1
      (n, n)

/-- A create request in a batch: auto-assigned id or explicitly
supplied id. -/
inductive CreateReq where
  | auto
  | explicit (i : Int)
  deriving DecidableEq, Repr

/-- The identifier logic of `Model.create`: without an explicit id,
assign `nextId()` and increment the cached counter; with an explicit
id, bump the counter to `id + 1` only when `id > nextId()` (the
`nextId()` call itself initializes the cache).  Yields the assigned id
and the cache after the call. -/
def stepCreate (sids : List Int) (cache : Option Int) : CreateReq → Int × Option Int
  | CreateReq.auto =>
      let (n, c) := nextIdFn sids cache
      (n, some (c + 1))
  | CreateReq.explicit i =>
      let (n, c) := nextIdFn sids cache
      if i > n then (i, some (i + 1)) else (i, some c)

/-- The ids assigned to a batch of create calls, in order, starting
from cache state `cache`. -/
def createSeq (sids : List Int) : List CreateReq → Option Int → List Int
  | [], _ => []
  | r :: rest, cache =>
      let (i, cache') := stepCreate sids cache r
      i :: createSeq sids rest cache'

/-- The ids handed out to the auto-assigned create calls of a batch,
in order. -/
def autoIds (sids : List Int) : List CreateReq → Option Int → List Int
  | [], _ => []
  | r :: rest, cache =>
      let (i, cache') := stepCreate sids cache r
      match r with
      | CreateReq.auto => i :: autoIds sids rest cache'
      | CreateReq.explicit _ => autoIds sids rest cache'

/-! ## Many-to-many replacement reconciliation -/

/-- Modelled from the spec: `arrayDiffActions(currentIds, newIds)`
from `utils.js` (absent from the sources): `toRemove = current −
new`, `toAdd = new − current`, and a falsy result (the source guards
`if (diffActions)`) when both are empty. -/
def arrayDiffActions (current target : List Int) :
    Option (List Int × List Int) :=
  let dels := current.filter (fun i => !target.contains i)
  let adds := target.filter (fun i => !current.contains i)
  if dels = [] && adds = [] then none else some (dels, adds)

/-- A relation-edit call on the many-to-many field's query set
(`this[key].remove(...)` / `this[key].add(...)`), each enqueuing one
batched DELETE/CREATE against the auxiliary store (the `QuerySet`
methods live outside the sources and are modelled from the spec). -/
inductive M2MOp where
  | remove (ids : List Int)
  | add (ids : List Int)
  deriving DecidableEq, Repr

/-- The many-to-many branch of `Model.prototype.update` given a full
replacement list: diff the current related ids against the new ones
and emit the removal call before the addition call, each only when its
id list is non-empty. -/
def m2mReconcile (current target : List Int) : List M2MOp :=
  match arrayDiffActions current target with
  | none => []
  | some (dels, adds) =>
      (if dels.isEmpty then [] else [M2MOp.remove dels]) ++
      (if adds.isEmpty then [] else [M2MOp.add adds])

/-- The effect of one relation-edit call on the related-id set of the
auxiliary store (modelled from the spec: removals drop the pair rows,
additions append the new pairs). -/
def applyM2MOp (rel : List Int) : M2MOp → List Int
  | M2MOp.remove ids => rel.filter (fun i => !ids.contains i)
  | M2MOp.add ids => rel ++ ids

/-- Folding the emitted relation edits over the current related-id
list. -/
def applyM2MOps (rel : List Int) (ops : List M2MOp) : List Int :=
  ops.foldl applyM2MOp rel

/-! ## Claim theorems -/

/-- C6: for every queue of pending actions, if the store's current
state is undefined then `getNextState` returns the default empty state
without applying any queued action (the result is the same for every
queue); otherwise it folds the queue left to right over the current
state with `updateReducer`, and the result is a pure function of
(state, queue); an empty queue is a no-op fold. -/
theorem model_getNextState_fold_spec (idA : String) :
    (∀ queue : List QAction, getNextStateV idA none queue = some defaultStateV)
  ∧ (∀ q1 q2 : List QAction, getNextStateV idA none q1 = getNextStateV idA none q2)
  ∧ (∀ (s : VState) (queue : List QAction),
      getNextStateV idA (some s) queue =
        queue.foldl (fun acc a => acc.bind (fun st => updateReducerV idA st a)) (some s))
  ∧ (∀ s : VState, getNextStateV idA (some s) [] = some s) :=
  ⟨fun _ => rfl, fun _ _ => rfl, fun _ _ => rfl, fun _ => rfl⟩

/-- C4 counterexample: `withId` on an identifier absent from the state
(id 5 in the empty store) returns an entity handle — a `Model`
instance constructed from the absent lookup — and not the absent
indicator the claim states. -/
theorem model_withId_missing_returns_handle_cex :
    withIdM ⟨[], []⟩ 5 = WithIdRes.handle ⟨none⟩ ∧
    withIdM ⟨[], []⟩ 5 ≠ WithIdRes.absent := by
  decide

/-- C4 amended: for every identifier not present in the store's
current state, `withId` returns a handle whose field snapshot is the
absent indicator (`accessId`'s `undefined`), rather than an absent
value in place of the handle. -/
theorem model_withId_missing_absent_snapshot (s : VState) (id : Int)
    (hmiss : mlookupO s.itemsById id = none) :
    withIdM s id = WithIdRes.handle ⟨none⟩ := by
  unfold withIdM
  rw [hmiss]

/-- Witness for the C4 amended theorem at the empty store and id 5. -/
theorem model_withId_missing_absent_snapshot_witness :
    mlookupO (⟨[], []⟩ : VState).itemsById 5 = none ∧
    withIdM ⟨[], []⟩ 5 = WithIdRes.handle ⟨none⟩ :=
  ⟨by decide, model_withId_missing_absent_snapshot ⟨[], []⟩ 5 (by decide)⟩

/-- The copy-on-write flat branch of `Backend.delete`:
`arr.filter(entity => !idsToDelete.includes(entity[idAttribute]))`
(a property access on a primitive element reads as `undefined`). -/
def jsValField (e : JsVal) (k : String) : Val :=
  match e with
  | JsVal.obj o => getD o k
  | JsVal.prim _ => Val.vundef

/-- `Backend.delete`, flat form, copy-on-write discipline. -/
def deleteCowFlat (idA : String) (items : List JsVal) (ids : List Val) : List JsVal :=
  items.filter (fun e => !ids.contains (jsValField e idA))

/-- C2: on the flat items array `[{id:0}, {id:1}]` with
`idsToDelete = [0]`, the mutate-in-place branch of `Backend.delete`
removes the LAST record `{id:1}` and keeps `{id:0}` (its
`idx === -1` check splices on not-found), while the copy-on-write
branch of the same method removes the matching record `{id:0}` as the
claim states for every configuration. -/
theorem backend_delete_flat_mutate_bug :
    deleteFlatMut [JsVal.obj [("id", Val.vint 0)], JsVal.obj [("id", Val.vint 1)]]
        [Val.vint 0]
      = [JsVal.obj [("id", Val.vint 0)]] ∧
    deleteCowFlat "id" [JsVal.obj [("id", Val.vint 0)], JsVal.obj [("id", Val.vint 1)]]
        [Val.vint 0]
      = [JsVal.obj [("id", Val.vint 1)]] := by
  decide

/-- C8: assigning `name = "Clean Code"` through a handle for the
record `{id: 0, name: "Refactoring"}` leaves the handle's snapshot
reading the old value and enqueues only an UPDATE action — but that
action's payload carries the id and field as plain keys, so the
reducer's read of `payload.idArr` / `payload.updater` yields
`undefined` and the batch fold throws inside `Backend.update` instead
of producing a state with the new value; the well-formed payload shape
enqueued by `Model.prototype.update` does produce the new value. -/
theorem handle_setter_stale_update_bug :
    handleRead ⟨some [("id", Val.vint 0), ("name", Val.vstr "Refactoring")]⟩ "name"
      = Val.vstr "Refactoring" ∧
    handleFieldSet "id" ⟨some [("id", Val.vint 0), ("name", Val.vstr "Refactoring")]⟩
        "name" (Val.vstr "Clean Code")
      = QAction.update ⟨none, none, [("id", Val.vint 0), ("name", Val.vstr "Clean Code")]⟩ ∧
    getNextStateV "id"
        (some ⟨[0], [(0, [("id", Val.vint 0), ("name", Val.vstr "Refactoring")])]⟩)
        [handleFieldSet "id" ⟨some [("id", Val.vint 0), ("name", Val.vstr "Refactoring")]⟩
          "name" (Val.vstr "Clean Code")]
      = none ∧
    getNextStateV "id"
        (some ⟨[0], [(0, [("id", Val.vint 0), ("name", Val.vstr "Refactoring")])]⟩)
        [handleUpdate "id" ⟨some [("id", Val.vint 0), ("name", Val.vstr "Refactoring")]⟩
          [("name", Val.vstr "Clean Code")]]
      = some ⟨[0], [(0, [("id", Val.vint 0), ("name", Val.vstr "Clean Code")])]⟩ := by
  decide

/-- C10: when the lookup object passed to `get` owns the identifier
attribute, `get` searches by that identifier alone and returns the
entity stored under it — the remaining lookup keys are ignored, even
when they disagree with the entity's fields (no constraint below
relates `lu`'s other keys to `props`). -/
theorem model_get_id_shortcut (idA : String) (s : VState) (lu : Obj) (i : Int)
    (props : Obj)
    (hne : s.items.length ≠ 0)
    (hlu : olookup lu idA = some (Val.vint i))
    (hprops : mlookupO s.itemsById i = some props) :
    getM idA s lu = GetRes.found props := by
  unfold getM
  rw [if_neg hne, hlu]
  simp only [accessIdV, hprops]

/-- Witness for C10: a two-entity store where the lookup carries id 1
together with a `name` that contradicts entity 1's stored name; `get`
still returns entity 1's record. -/
theorem model_get_id_shortcut_witness :
    ((⟨[0, 1], [(0, [("id", Val.vint 0), ("name", Val.vstr "A")]),
                (1, [("id", Val.vint 1), ("name", Val.vstr "B")])]⟩ : VState).items.length ≠ 0 ∧
     olookup [("id", Val.vint 1), ("name", Val.vstr "ZZZ")] "id" = some (Val.vint 1) ∧
     mlookupO [(0, [("id", Val.vint 0), ("name", Val.vstr "A")]),
               (1, [("id", Val.vint 1), ("name", Val.vstr "B")])] 1
       = some [("id", Val.vint 1), ("name", Val.vstr "B")]) ∧
    getM "id" ⟨[0, 1], [(0, [("id", Val.vint 0), ("name", Val.vstr "A")]),
                        (1, [("id", Val.vint 1), ("name", Val.vstr "B")])]⟩
        [("id", Val.vint 1), ("name", Val.vstr "ZZZ")]
      = GetRes.found [("id", Val.vint 1), ("name", Val.vstr "B")] :=
  ⟨⟨by decide, by decide, by decide⟩,
   model_get_id_shortcut "id" _ _ 1 _ (by decide) (by decide) (by decide)⟩

/-- C3 counterexample: with two stored entities both matching the
pattern `{name: "A"}`, `get` does not raise an ambiguous-match error —
it returns the first matching entity. -/
theorem model_get_no_ambiguity_error_cex :
    matchesB [("name", Val.vstr "A")] [("id", Val.vint 0), ("name", Val.vstr "A")] = true ∧
    matchesB [("name", Val.vstr "A")] [("id", Val.vint 1), ("name", Val.vstr "A")] = true ∧
    getM "id" ⟨[0, 1], [(0, [("id", Val.vint 0), ("name", Val.vstr "A")]),
                        (1, [("id", Val.vint 1), ("name", Val.vstr "A")])]⟩
        [("name", Val.vstr "A")]
      = GetRes.found [("id", Val.vint 0), ("name", Val.vstr "A")] := by
  decide

/-- C3 amended: `get` raises the not-found error when zero entities
match, and the distinct no-entities error when the store is empty; but
when one or more entities match the pattern there is no ambiguity
error — `get` returns the first match. -/
theorem model_get_errors_and_first_match (idA : String) (s : VState) (lu : Obj)
    (hnoid : olookup lu idA = none) :
    (∀ r, s.items.length ≠ 0 →
      (s.items.map (fun i => (mlookupO s.itemsById i).getD [])).find?
          (fun r => matchesB lu r) = some r →
      getM idA s lu = GetRes.found r)
  ∧ (s.items.length ≠ 0 →
      (s.items.map (fun i => (mlookupO s.itemsById i).getD [])).find?
          (fun r => matchesB lu r) = none →
      getM idA s lu = GetRes.errNotFound)
  ∧ (s.items.length = 0 → getM idA s lu = GetRes.errNoEntities)
  ∧ GetRes.errNotFound ≠ GetRes.errNoEntities := by
  refine ⟨?_, ?_, ?_, by decide⟩
  · intro r hne hfind
    unfold getM
    rw [if_neg hne, hnoid, hfind]
  · intro hne hfind
    unfold getM
    rw [if_neg hne, hnoid, hfind]
  · intro hz
    unfold getM
    rw [if_pos hz]

/-- Witness for the C3 amended theorem at a two-entity store whose
records both match `{name: "A"}`: the first-match clause applies. -/
theorem model_get_errors_and_first_match_witness :
    olookup [("name", Val.vstr "A")] "id" = none ∧
    ((⟨[0, 1], [(0, [("id", Val.vint 0), ("name", Val.vstr "A")]),
                (1, [("id", Val.vint 1), ("name", Val.vstr "A")])]⟩ : VState).items.length ≠ 0) ∧
    getM "id" ⟨[0, 1], [(0, [("id", Val.vint 0), ("name", Val.vstr "A")]),
                        (1, [("id", Val.vint 1), ("name", Val.vstr "A")])]⟩
        [("name", Val.vstr "A")]
      = GetRes.found [("id", Val.vint 0), ("name", Val.vstr "A")] :=
  ⟨by decide, by decide,
   (model_get_errors_and_first_match "id"
      ⟨[0, 1], [(0, [("id", Val.vint 0), ("name", Val.vstr "A")]),
                (1, [("id", Val.vint 1), ("name", Val.vstr "A")])]⟩
      [("name", Val.vstr "A")] (by decide)).1
     [("id", Val.vint 0), ("name", Val.vstr "A")] (by decide) (by decide)⟩

/-- C7: when an entity's `update` is given a full replacement list for
a many-to-many field and both set differences are non-empty, the
reconciliation emits the removal call (`currentIds − newIds`) before
the addition call (`newIds − currentIds`); for current related ids
`[1,2,3]` and replacement `[2,3,4]` it emits exactly one remove (`[1]`)
and one add (`[4]`), and applying both yields `[2,3,4]`. -/
theorem m2m_replacement_reconciliation :
    (∀ current target : List Int,
      current.filter (fun i => !target.contains i) ≠ [] →
      target.filter (fun i => !current.contains i) ≠ [] →
      m2mReconcile current target =
        [M2MOp.remove (current.filter (fun i => !target.contains i)),
         M2MOp.add (target.filter (fun i => !current.contains i))])
  ∧ m2mReconcile [1, 2, 3] [2, 3, 4] = [M2MOp.remove [1], M2MOp.add [4]]
  ∧ applyM2MOps [1, 2, 3] (m2mReconcile [1, 2, 3] [2, 3, 4]) = [2, 3, 4] := by
  refine ⟨?_, by decide, by decide⟩
  intro current target hdel hadd
  unfold m2mReconcile arrayDiffActions
  rw [if_neg (by simp only [Bool.and_eq_true, decide_eq_true_eq]; rintro ⟨h1, _⟩; exact hdel h1)]
  dsimp only
  rw [if_neg (by simpa using hdel), if_neg (by simpa using hadd)]
  rfl

/-- Witness for the C7 universal clause at current ids `[1,2,3]` and
replacement `[2,3,4]`. -/
theorem m2m_replacement_reconciliation_witness :
    m2mReconcile [1, 2, 3] [2, 3, 4] =
      [M2MOp.remove (([1, 2, 3] : List Int).filter (fun i => !([2, 3, 4] : List Int).contains i)),
       M2MOp.add (([2, 3, 4] : List Int).filter (fun i => !([1, 2, 3] : List Int).contains i))] :=
  m2m_replacement_reconciliation.1 [1, 2, 3] [2, 3, 4] (by decide) (by decide)

/-- C1 counterexample: in one batch over the empty store, an explicit
`create({id: 0})` followed by an auto-assigned create hands the auto
create the identifier 0 as well — not a value greater than the
identifier supplied to the pending explicit create (the counter is
bumped only when the explicit id is strictly greater than it). -/
theorem create_autoId_reuses_pending_explicit_cex :
    createSeq [] [CreateReq.explicit 0, CreateReq.auto] none = [0, 0]
  ∧ autoIds [] [CreateReq.explicit 0, CreateReq.auto] none = [0] := by
  decide

/-- Every element of a non-empty list is bounded by `listMax`. -/
theorem listMax_le_of_mem {l : List Int} {x : Int} (hx : x ∈ l) : x ≤ listMax l := by
  induction l with
  | nil => cases hx
  | cons a rest ih =>
    cases rest with
    | nil =>
      have : x = a := by simpa using hx
      subst this
      simp [listMax]
    | cons b rest' =>
      rcases List.mem_cons.mp hx with rfl | hmem
      · simp only [listMax]; exact le_max_left _ _
      · simp only [listMax]; exact le_trans (ih hmem) (le_max_right _ _)

/-- Once the session counter is initialized to `c`, every auto id the
rest of the batch hands out is at least `c`, and the auto ids are
strictly increasing. -/
theorem autoIds_cached_props (sids : List Int) :
    ∀ (reqs : List CreateReq) (c : Int),
      (∀ a ∈ autoIds sids reqs (some c), c ≤ a) ∧
      List.Pairwise (· < ·) (autoIds sids reqs (some c)) := by
  intro reqs
  induction reqs with
  | nil => exact fun c => ⟨fun a ha => absurd ha (List.not_mem_nil a), List.Pairwise.nil⟩
  | cons r rest ih =>
    intro c
    cases r with
    | auto =>
      have hred : autoIds sids (CreateReq.auto :: rest) (some c)
          = c :: autoIds sids rest (some (c + 1)) := by
        simp [autoIds, stepCreate, nextIdFn]
      constructor
      · intro a ha
        rw [hred] at ha
        rcases List.mem_cons.mp ha with rfl | hmem
        · exact le_refl _
        · have := (ih (c + 1)).1 a hmem; omega
      · rw [hred]
        refine List.Pairwise.cons ?_ (ih (c + 1)).2
        intro a hmem
        have := (ih (c + 1)).1 a hmem; omega
    | explicit i =>
      by_cases hic : i > c
      · have hred : autoIds sids (CreateReq.explicit i :: rest) (some c)
            = autoIds sids rest (some (i + 1)) := by
          simp [autoIds, stepCreate, nextIdFn, hic]
        constructor
        · intro a ha
          rw [hred] at ha
          have := (ih (i + 1)).1 a ha; omega
        · rw [hred]; exact (ih (i + 1)).2
      · have hred : autoIds sids (CreateReq.explicit i :: rest) (some c)
            = autoIds sids rest (some c) := by
          simp [autoIds, stepCreate, nextIdFn, hic]
        rw [hred]
        exact ih c

/-- C1 amended: each auto-assigned create receives the session
counter, which starts one above every identifier in the store's
current state; an explicitly supplied pending identifier raises the
counter (to one more than itself) only when it is strictly greater
than the counter — an explicit id equal to the counter is not
accounted for and the next auto id reuses it.  Consequently the
auto-assigned identifiers of a batch are strictly increasing and
strictly greater than every identifier in the state. -/
theorem create_autoIds_increasing_and_fresh (sids : List Int) (reqs : List CreateReq) :
    List.Pairwise (· < ·) (autoIds sids reqs none)
  ∧ ∀ a ∈ autoIds sids reqs none, ∀ x ∈ sids, x < a := by
  have hinit : ∀ x ∈ sids, x < (if sids = [] then 0 else listMax sids + 1) := by
    intro x hx
    have hne : sids ≠ [] := by rintro rfl; cases hx
    rw [if_neg hne]
    have := listMax_le_of_mem hx; omega
  cases reqs with
  | nil => exact ⟨List.Pairwise.nil, fun a ha => absurd ha (List.not_mem_nil a)⟩
  | cons r rest =>
    cases r with
    | auto =>
      have hred : autoIds sids (CreateReq.auto :: rest) none
          = (if sids = [] then 0 else listMax sids + 1)
            :: autoIds sids rest (some ((if sids = [] then 0 else listMax sids + 1) + 1)) := by
        simp [autoIds, stepCreate, nextIdFn]
      constructor
      · rw [hred]
        refine List.Pairwise.cons ?_ (autoIds_cached_props sids rest _).2
        intro a hmem
        have := (autoIds_cached_props sids rest _).1 a hmem; omega
      · intro a ha x hx
        rw [hred] at ha
        rcases List.mem_cons.mp ha with rfl | hmem
        · exact hinit x hx
        · have h1 := (autoIds_cached_props sids rest _).1 a hmem
          have h2 := hinit x hx; omega
    | explicit i =>
      by_cases hic : (if sids = [] then 0 else listMax sids + 1) < i
      · have hred : autoIds sids (CreateReq.explicit i :: rest) none
            = autoIds sids rest (some (i + 1)) := by
          simp [autoIds, stepCreate, nextIdFn, hic]
        constructor
        · rw [hred]; exact (autoIds_cached_props sids rest _).2
        · intro a ha x hx
          rw [hred] at ha
          have h1 := (autoIds_cached_props sids rest _).1 a ha
          have h2 := hinit x hx; omega
      · have hred : autoIds sids (CreateReq.explicit i :: rest) none
            = autoIds sids rest (some (if sids = [] then 0 else listMax sids + 1)) := by
          simp [autoIds, stepCreate, nextIdFn, hic]
        constructor
        · rw [hred]; exact (autoIds_cached_props sids rest _).2
        · intro a ha x hx
          rw [hred] at ha
          have h1 := (autoIds_cached_props sids rest _).1 a ha
          have h2 := hinit x hx; omega

/-- Witness for the C1 amended theorem: a store holding id 3 and a
batch of an auto create, an explicit `create({id: 10})` and another
auto create (the auto ids come out `[4, 11]`). -/
theorem create_autoIds_increasing_and_fresh_witness :
    List.Pairwise (· < ·)
      (autoIds [3] [CreateReq.auto, CreateReq.explicit 10, CreateReq.auto] none)
  ∧ ∀ a ∈ autoIds [3] [CreateReq.auto, CreateReq.explicit 10, CreateReq.auto] none,
      ∀ x ∈ ([3] : List Int), x < a :=
  create_autoIds_increasing_and_fresh [3] [CreateReq.auto, CreateReq.explicit 10, CreateReq.auto]

/-- C9: in copy-on-write mode, `Backend.insert` (indexed form) returns
a branch whose freshly allocated order array is the old one with the
new entry's identifier appended and whose freshly allocated index map
is the old map shallow-merged with the one new entry; the input branch
is not mutated — its order-array and index-map references still read
their old contents after the call, every previously allocated heap
entry is unchanged, and no record object is touched. -/
theorem backend_insert_cow_frame (idA : String) (h : Heap) (s : IState) (entryRef : Nat)
    (A : List Int) (M : List (Int × Nat)) (E : Obj) (i : Int)
    (hA : h.arrs[s.arrRef]? = some A)
    (hM : h.maps[s.mapRef]? = some M)
    (hE : h.recs[entryRef]? = some E)
    (hid : olookup E idA = some (Val.vint i)) :
    ∃ h' s', insertCowIdx idA h s entryRef = some (h', s')
      ∧ h'.arrs[s'.arrRef]? = some (A ++ [i])
      ∧ h'.maps[s'.mapRef]? = some (mset M i entryRef)
      ∧ h'.arrs[s.arrRef]? = some A
      ∧ h'.maps[s.mapRef]? = some M
      ∧ (∀ r, r < h.arrs.length → h'.arrs[r]? = h.arrs[r]?)
      ∧ (∀ r, r < h.maps.length → h'.maps[r]? = h.maps[r]?)
      ∧ h'.recs = h.recs := by
  have hlenA : s.arrRef < h.arrs.length := by
    rw [List.getElem?_eq_some] at hA; exact hA.1
  have hlenM : s.mapRef < h.maps.length := by
    rw [List.getElem?_eq_some] at hM; exact hM.1
  refine ⟨⟨h.arrs ++ [A ++ [i]], h.maps ++ [mset M i entryRef], h.recs⟩,
          ⟨h.arrs.length, h.maps.length⟩, ?_, ?_, ?_, ?_, ?_, ?_, ?_, rfl⟩
  · simp only [insertCowIdx, hA, hM, hE, hid, Option.bind_eq_bind, Option.some_bind]
  · exact List.getElem?_concat_length _ _
  · exact List.getElem?_concat_length _ _
  · rw [List.getElem?_append_left hlenA]; exact hA
  · rw [List.getElem?_append_left hlenM]; exact hM
  · intro r hr; exact List.getElem?_append_left hr
  · intro r hr; exact List.getElem?_append_left hr

/-- A one-entity demonstration heap (`{items: [0], itemsById: {0:
rec0}}` plus a caller-allocated entry `{id: 1, name: "B"}`). -/
def demoHeap : Heap :=
  ⟨[[0]], [[(0, 0)]], [[("id", Val.vint 0)], [("id", Val.vint 1), ("name", Val.vstr "B")]]⟩

/-- Witness for C9 at `demoHeap`, branch `⟨0, 0⟩`, inserting entry 1. -/
theorem backend_insert_cow_frame_witness :
    (demoHeap.arrs[(0 : Nat)]? = some [0] ∧
     demoHeap.maps[(0 : Nat)]? = some [(0, 0)] ∧
     demoHeap.recs[(1 : Nat)]? = some [("id", Val.vint 1), ("name", Val.vstr "B")] ∧
     olookup [("id", Val.vint 1), ("name", Val.vstr "B")] "id" = some (Val.vint 1)) ∧
    (∃ h' s', insertCowIdx "id" demoHeap ⟨0, 0⟩ 1 = some (h', s')
      ∧ h'.arrs[s'.arrRef]? = some ([0] ++ [1])
      ∧ h'.maps[s'.mapRef]? = some (mset [(0, 0)] 1 1)
      ∧ h'.arrs[(⟨0, 0⟩ : IState).arrRef]? = some [0]
      ∧ h'.maps[(⟨0, 0⟩ : IState).mapRef]? = some [(0, 0)]
      ∧ (∀ r, r < demoHeap.arrs.length → h'.arrs[r]? = demoHeap.arrs[r]?)
      ∧ (∀ r, r < demoHeap.maps.length → h'.maps[r]? = demoHeap.maps[r]?)
      ∧ h'.recs = demoHeap.recs) :=
  ⟨⟨by decide, by decide, by decide, by decide⟩,
   backend_insert_cow_frame "id" demoHeap ⟨0, 0⟩ 1 [0] [(0, 0)]
     [("id", Val.vint 1), ("name", Val.vstr "B")] 1
     (by decide) (by decide) (by decide) (by decide)⟩

/-- Whether the record under `id` exists and the object patcher is a
no-op on it (its `objectDiff` against the patcher is falsy). -/
def noDiffAt (recs : List Obj) (M : List (Int × Nat)) (p : Obj) (id : Int) : Bool :=
  match mlookup M id with
  | some r =>
      match recs[r]? with
      | some e => (objectDiffO e p).isNone
      | none => false
  | none => false

theorem noDiffAt_iff (recs : List Obj) (M : List (Int × Nat)) (p : Obj) (id : Int) :
    noDiffAt recs M p id = true ↔
      ∃ r e, mlookup M id = some r ∧ recs[r]? = some e ∧ objectDiffO e p = none := by
  unfold noDiffAt
  cases hml : mlookup M id with
  | none => simp
  | some r =>
    cases hre : recs[r]? with
    | none => simp [hre]
    | some e =>
      cases hd : objectDiffO e p with
      | none => simp [hre, hd]
      | some d => simp [hre, hd]

theorem noDiffAt_extend (recs : List Obj) (x : Obj) (M : List (Int × Nat)) (p : Obj)
    (id : Int) (hnd : noDiffAt recs M p id = true) :
    noDiffAt (recs ++ [x]) M p id = true := by
  rw [noDiffAt_iff] at hnd ⊢
  obtain ⟨r, e, h1, h2, h3⟩ := hnd
  have hr : r < recs.length := by rw [List.getElem?_eq_some] at h2; exact h2.1
  exact ⟨r, e, h1, by rw [List.getElem?_append_left hr]; exact h2, h3⟩

theorem collectUpdates_noChange (p : Obj) (M : List (Int × Nat)) :
    ∀ (ids : List Int) (h : Heap),
      (∀ id ∈ ids, noDiffAt h.recs M p id = true) →
      collectUpdates p M h ids = some (h, []) := by
  intro ids
  induction ids with
  | nil => intro h _; rfl
  | cons id rest ih =>
    intro h hall
    obtain ⟨r, e, h1, h2, h3⟩ :=
      (noDiffAt_iff h.recs M p id).mp (hall id (List.mem_cons_self id rest))
    simp only [collectUpdates, h1, h2, h3, Option.bind_eq_bind, Option.some_bind]
    exact ih h (fun i hi => hall i (List.mem_cons_of_mem _ hi))

theorem mlookup_mset_ne : ∀ (m : List (Int × Nat)) (i : Int) (r : Nat) (k : Int),
    k ≠ i → mlookup (mset m i r) k = mlookup m k := by
  intro m
  induction m with
  | nil =>
    intro i r k hk
    simp only [mset, mlookup, if_neg (Ne.symm hk)]
  | cons pr m' ih =>
    intro i r k hk
    obtain ⟨a, b⟩ := pr
    by_cases hai : a = i
    · subst hai
      simp only [mset, if_pos rfl, mlookup, if_neg (Ne.symm hk)]
    · simp only [mset, if_neg hai, mlookup]
      by_cases hak : a = k
      · simp [hak]
      · simp only [if_neg hak]
        exact ih i r k hk

theorem mlookup_foldl_mset_not_mem :
    ∀ (d : List (Int × Nat)) (m : List (Int × Nat)) (i : Int),
      (∀ pr ∈ d, pr.1 ≠ i) →
      mlookup (d.foldl (fun m pr => mset m pr.1 pr.2) m) i = mlookup m i := by
  intro d
  induction d with
  | nil => intro m i _; rfl
  | cons pr d' ih =>
    intro m i hall
    simp only [List.foldl_cons]
    rw [ih (mset m pr.1 pr.2) i (fun q hq => hall q (List.mem_cons_of_mem _ hq))]
    exact mlookup_mset_ne m pr.1 pr.2 i (Ne.symm (hall pr (List.mem_cons_self _ _)))

theorem mapDiff_nil (M : List (Int × Nat)) : mapDiff M [] = none := rfl

theorem mapDiff_subset (M um d : List (Int × Nat)) (h : mapDiff M um = some d) :
    ∀ pr ∈ d, pr ∈ um := by
  unfold mapDiff at h
  by_cases hd : um.filter (fun pr => mlookup M pr.1 ≠ some pr.2) = []
  · rw [if_pos hd] at h; cases h
  · rw [if_neg hd] at h
    cases h
    intro pr hpr
    exact (List.mem_filter.mp hpr).1

theorem collectUpdates_spec (p : Obj) (M : List (Int × Nat)) :
    ∀ (ids : List Int) (h h1 : Heap) (um : List (Int × Nat)),
      collectUpdates p M h ids = some (h1, um) →
      h1.arrs = h.arrs ∧ h1.maps = h.maps ∧
      h.recs.length ≤ h1.recs.length ∧
      (∀ j, j < h.recs.length → h1.recs[j]? = h.recs[j]?) ∧
      (∀ pr ∈ um, pr.1 ∈ ids) ∧
      (∀ id, noDiffAt h.recs M p id = true → ∀ r', (id, r') ∉ um) := by
  intro ids
  induction ids with
  | nil =>
    intro h h1 um hcu
    simp only [collectUpdates, Option.some.injEq, Prod.mk.injEq] at hcu
    obtain ⟨rfl, rfl⟩ := hcu
    exact ⟨rfl, rfl, le_refl _, fun j _ => rfl,
           fun pr hpr => absurd hpr (List.not_mem_nil pr),
           fun id _ r' hmem => absurd hmem (List.not_mem_nil _)⟩
  | cons id rest ih =>
    intro h h1 um hcu
    simp only [collectUpdates, Option.bind_eq_bind] at hcu
    cases hml : mlookup M id with
    | none => rw [hml] at hcu; simp at hcu
    | some r =>
      rw [hml] at hcu
      simp only [Option.some_bind] at hcu
      cases hre : h.recs[r]? with
      | none => rw [hre] at hcu; simp at hcu
      | some e =>
        rw [hre] at hcu
        simp only [Option.some_bind] at hcu
        cases hd : objectDiffO e p with
        | none =>
          rw [hd] at hcu
          obtain ⟨ha, hm, hlen, hframe, hmem, hnd⟩ := ih h h1 um hcu
          refine ⟨ha, hm, hlen, hframe, ?_, ?_⟩
          · intro pr hpr
            exact List.mem_cons_of_mem _ (hmem pr hpr)
          · intro i hndi r' hmem'
            exact hnd i hndi r' hmem'
        | some d0 =>
          rw [hd] at hcu
          cases hcu2 : collectUpdates p M ⟨h.arrs, h.maps, h.recs ++ [omerge e p]⟩ rest with
          | none => rw [hcu2] at hcu; simp at hcu
          | some pr2 =>
            obtain ⟨h'', um'⟩ := pr2
            rw [hcu2] at hcu
            simp only [Option.some_bind, Option.some.injEq, Prod.mk.injEq] at hcu
            obtain ⟨rfl, rfl⟩ := hcu
            obtain ⟨ha, hm, hlen, hframe, hmem, hnd⟩ := ih _ h'' um' hcu2
            have hlen' : (h.recs ++ [omerge e p]).length = h.recs.length + 1 := by
              simp
            refine ⟨ha, hm, ?_, ?_, ?_, ?_⟩
            · simp only [Heap.recs] at hlen
              omega
            · intro j hj
              have hj' : j < (⟨h.arrs, h.maps, h.recs ++ [omerge e p]⟩ : Heap).recs.length := by
                simp only [Heap.recs]; omega
              rw [hframe j hj']
              simp only [Heap.recs]
              exact List.getElem?_append_left hj
            · intro pr hpr
              rcases List.mem_cons.mp hpr with rfl | hpr'
              · exact List.mem_cons_self _ _
              · exact List.mem_cons_of_mem _ (hmem pr hpr')
            · intro i hndi r' hmem'
              rcases List.mem_cons.mp hmem' with heq | hmem''
              · obtain ⟨r0, e0, h1', h2', h3'⟩ := (noDiffAt_iff h.recs M p i).mp hndi
                have : i = id := by
                  have := congrArg Prod.fst heq; simpa using this
                subst this
                rw [hml] at h1'
                injection h1' with h1''
                subst h1''
                rw [hre] at h2'
                injection h2' with h2''
                subst h2''
                rw [hd] at h3'
                cases h3'
              · exact hnd i (noDiffAt_extend h.recs (omerge e p) M p i hndi) r' hmem''

/-- C5: `Backend.update` with an object patch is identity-stable.  If
the patch changes no affected record (every affected id's record
already carries the patch values), the call returns the original
branch — the very same state and heap — in the indexed copy-on-write
mode, and the flat copy-on-write mode likewise returns the input
branch itself (third conjunct).  When some ids do change (indexed
copy-on-write), the returned branch keeps the input's order-array
reference, every previously allocated record object is untouched, and
the new index map still binds every unaffected id (not in `idArr`, or
affected but unchanged) to its old record reference — reference
identity, not mere value equality. -/
theorem backend_update_identity_stability (idA : String) (h : Heap) (s : IState)
    (M : List (Int × Nat)) (idArr : List Int) (patcher : Obj)
    (hM : h.maps[s.mapRef]? = some M) :
    ((∀ id ∈ idArr, noDiffAt h.recs M patcher id = true) →
        updateCowIdx h s idArr patcher = some (h, s))
  ∧ (∀ h' s', updateCowIdx h s idArr patcher = some (h', s') →
      s'.arrRef = s.arrRef
      ∧ h'.arrs = h.arrs
      ∧ (∀ j, j < h.recs.length → h'.recs[j]? = h.recs[j]?)
      ∧ ∃ M', h'.maps[s'.mapRef]? = some M'
          ∧ ∀ id r, mlookup M id = some r →
              (id ∉ idArr ∨ noDiffAt h.recs M patcher id = true) →
              mlookup M' id = some r)
  ∧ (∀ (items : List Obj) (ids2 : List Int) (p2 : Obj),
      (∀ e ∈ items, memIds (getD e idA) ids2 = true → objectDiffO e p2 = none) →
      updateCowFlat idA items ids2 p2 = FlatUpd.orig) := by
  refine ⟨?_, ?_, ?_⟩
  · intro hnc
    unfold updateCowIdx
    rw [hM]
    simp only [Option.bind_eq_bind, Option.some_bind]
    rw [collectUpdates_noChange patcher M idArr h hnc]
    simp only [Option.some_bind]
    rw [mapDiff_nil]
  · intro h' s' hupd
    unfold updateCowIdx at hupd
    rw [hM] at hupd
    simp only [Option.bind_eq_bind, Option.some_bind] at hupd
    cases hcu : collectUpdates patcher M h idArr with
    | none => rw [hcu] at hupd; simp at hupd
    | some pr =>
      obtain ⟨h1, um⟩ := pr
      rw [hcu] at hupd
      simp only [Option.some_bind] at hupd
      obtain ⟨ha, hm, _hlen, hframe, hmem, hnd⟩ := collectUpdates_spec patcher M idArr h h1 um hcu
      cases hdiff : mapDiff M um with
      | none =>
        rw [hdiff] at hupd
        simp only [Option.some.injEq, Prod.mk.injEq] at hupd
        obtain ⟨rfl, rfl⟩ := hupd
        refine ⟨rfl, ha, hframe, M, ?_, ?_⟩
        · rw [hm]; exact hM
        · intro id r hml _
          exact hml
      | some d =>
        rw [hdiff] at hupd
        simp only [Option.some.injEq, Prod.mk.injEq] at hupd
        obtain ⟨rfl, rfl⟩ := hupd
        refine ⟨rfl, ha, hframe, d.foldl (fun m pr => mset m pr.1 pr.2) M, ?_, ?_⟩
        · exact List.getElem?_concat_length _ _
        · intro id r hml hun
          rw [mlookup_foldl_mset_not_mem d M id ?_, hml]
          intro q hq
          have hq' : q ∈ um := mapDiff_subset M um d hdiff q hq
          rcases hun with hnin | hndi
          · intro hcontra
            exact hnin (hcontra ▸ hmem q hq')
          · intro hcontra
            have hq2 : (id, q.2) ∈ um := by
              have hqe : q = (id, q.2) := by
                rw [← hcontra]
              rw [← hqe]
              exact hq'
            exact hnd id hndi q.2 hq2
  · intro items ids2 p2 hnc
    unfold updateCowFlat
    have hfalse : (items.any fun e => memIds (getD e idA) ids2 && (objectDiffO e p2).isSome)
        = false := by
      rw [List.any_eq_false]
      intro e he
      by_cases hmem2 : memIds (getD e idA) ids2 = true
      · simp [hmem2, hnc e he hmem2]
      · simp [Bool.eq_false_iff.mpr hmem2]
    rw [hfalse]
    simp

/-- A two-entity demonstration heap
(`{items: [0, 1], itemsById: {0: rec0, 1: rec1}}`). -/
def patchHeap : Heap :=
  ⟨[[0, 1]], [[(0, 0), (1, 1)]],
   [[("id", Val.vint 0), ("name", Val.vstr "A")], [("id", Val.vint 1), ("name", Val.vstr "B")]]⟩

/-- Witness for C5 at `patchHeap`, patching id 0 with `{name: "C"}`. -/
theorem backend_update_identity_stability_witness :
    patchHeap.maps[(⟨0, 0⟩ : IState).mapRef]? = some [(0, 0), (1, 1)] ∧
    (((∀ id ∈ ([0] : List Int),
          noDiffAt patchHeap.recs [(0, 0), (1, 1)] [("name", Val.vstr "C")] id = true) →
        updateCowIdx patchHeap ⟨0, 0⟩ [0] [("name", Val.vstr "C")]
          = some (patchHeap, ⟨0, 0⟩))
     ∧ (∀ h' s', updateCowIdx patchHeap ⟨0, 0⟩ [0] [("name", Val.vstr "C")] = some (h', s') →
         s'.arrRef = (⟨0, 0⟩ : IState).arrRef
         ∧ h'.arrs = patchHeap.arrs
         ∧ (∀ j, j < patchHeap.recs.length → h'.recs[j]? = patchHeap.recs[j]?)
         ∧ ∃ M', h'.maps[s'.mapRef]? = some M'
             ∧ ∀ id r, mlookup [(0, 0), (1, 1)] id = some r →
                 (id ∉ ([0] : List Int) ∨
                   noDiffAt patchHeap.recs [(0, 0), (1, 1)] [("name", Val.vstr "C")] id = true) →
                 mlookup M' id = some r)
     ∧ (∀ (items : List Obj) (ids2 : List Int) (p2 : Obj),
         (∀ e ∈ items, memIds (getD e "id") ids2 = true → objectDiffO e p2 = none) →
         updateCowFlat "id" items ids2 p2 = FlatUpd.orig)) :=
  ⟨by decide,
   backend_update_identity_stability "id" patchHeap ⟨0, 0⟩ [(0, 0), (1, 1)] [0]
     [("name", Val.vstr "C")] (by decide)⟩
